import Mathlib

set_option linter.unusedVariables false

/-!
Shallow embedding of the HiBid auction-house scraper.

The Python sources embedded here are `api/_lib/security.py`,
`api/_lib/scraper.py`, `api/_lib/config.py` and `api/get_company_list.py`.
Python/JSON values are modelled by `PyVal`; Python dicts are association
lists in insertion order; the network, DNS and the BeautifulSoup layer are
modelled as input oracles (the fetched apollo state, the parsed table rows,
the resolver).  Where Python would raise on an ill-typed value (a place the
scraper never reaches on JSON input) the model returns a junk default,
noted next to the definition.
-/

/-- Python/JSON values as the scraper manipulates them.  JSON `null` and
Python `None` are both `PyVal.none` (which is faithful: `json.loads` maps
`null` to `None`). -/
inductive PyVal where
  | none
  | bool (b : Bool)
  | int (n : Int)
  | str (s : String)
  | list (xs : List PyVal)
  | dict (fields : List (String × PyVal))

/-- Python truthiness (`bool(v)`) for the modelled values. -/
def PyVal.truthy : PyVal → Bool
  | .none => false
  | .bool b => b
  | .int n => n != 0
  | .str s => !s.isEmpty
  | .list xs => !xs.isEmpty
  | .dict fs => !fs.isEmpty

/-- `isinstance(v, dict)`. -/
def PyVal.isDict : PyVal → Bool
  | .dict _ => true
  | _ => false

/-- Numeric view used by Python `==`: `True == 1` holds because `bool` is an
`int` subclass. -/
def pyNumView : PyVal → Option Int
  | .bool b => Option.some (if b then 1 else 0)
  | .int n => Option.some n
  | _ => Option.none

/-- Python `==` on the scalar values that occur as ids and dict keys.
Containers always compare unequal here (the scraper never compares them;
they are also unhashable as keys). -/
def pyEqV (a b : PyVal) : Bool :=
  match pyNumView a, pyNumView b with
  | Option.some x, Option.some y => x == y
  | Option.some _, Option.none => false
  | Option.none, Option.some _ => false
  | Option.none, Option.none =>
    match a, b with
    | .none, .none => true
    | .str s, .str t => s == t
    | _, _ => false

/-- First-match lookup in a string-keyed dict (Python dict keys are unique
per decode, so first match is the match). -/
def lookupStr : List (String × PyVal) → String → Option PyVal
  | [], _ => Option.none
  | kv :: rest, key => if kv.1 = key then Option.some kv.2 else lookupStr rest key

/-- `v.get(k)` on a dict: `None` when the key is missing. -/
def pyGet (v : PyVal) (k : String) : PyVal :=
  match v with
  | .dict fs => (lookupStr fs k).getD .none
  | _ => .none

/-- `v.get(k, d)` on a dict: the default only when the key is missing. -/
def pyGetD (v : PyVal) (k : String) (d : PyVal) : PyVal :=
  match v with
  | .dict fs => (lookupStr fs k).getD d
  | _ => d

/-- `a or b` in Python: `a` when truthy, else `b`. -/
def pyOr (a b : PyVal) : PyVal := if a.truthy then a else b

/-- The `x or ""` idiom of the formatter. -/
def pyOrEmptyStr (v : PyVal) : PyVal := pyOr v (.str "")

/-- View a value as a dict's items; junk `[]` on non-dicts (Python would
raise there). -/
def PyVal.asDictD : PyVal → List (String × PyVal)
  | .dict fs => fs
  | _ => []

/-- View a value as a list; junk `[]` on non-lists (Python would raise). -/
def PyVal.asListD : PyVal → List PyVal
  | .list xs => xs
  | _ => []

/-- View a value as a string; junk `""` on non-strings (Python would
raise where this is applied to one). -/
def PyVal.asStr : PyVal → String
  | .str s => s
  | _ => ""

/-- `str(v)` as used in the f-string building profile URLs. -/
def pyFormat : PyVal → String
  | .none => "None"
  | .bool b => if b then "True" else "False"
  | .int n => toString n
  | .str s => s
  | .list _ => ""
  | .dict _ => ""

/-- `d[k] = v` on a `PyVal`-keyed dict: Python keeps the position and the
original key object of an existing equal key and replaces the value, else
appends. -/
def pyDictInsert (m : List (PyVal × PyVal)) (k v : PyVal) : List (PyVal × PyVal) :=
  if m.any (fun p => pyEqV p.1 k) then
    m.map (fun p => if pyEqV p.1 k then (p.1, v) else p)
  else m ++ [(k, v)]

/-- `d.get(k)` on a `PyVal`-keyed dict. -/
def dictLookupPy : List (PyVal × PyVal) → PyVal → Option PyVal
  | [], _ => Option.none
  | p :: rest, k => if pyEqV p.1 k then Option.some p.2 else dictLookupPy rest k

/-- `d[k] = v` on a string-keyed dict (used for the profile-url override). -/
def dictSetStr (d : List (String × PyVal)) (k : String) (v : PyVal) : List (String × PyVal) :=
  if d.any (fun p => p.1 == k) then
    d.map (fun p => if p.1 = k then (p.1, v) else p)
  else d ++ [(k, v)]

/-! ### Character and string helpers mirroring the Python string methods -/

/-- The whitespace set of `str.strip()` / regex `\s` (ASCII part). -/
def isPySpace (c : Char) : Bool :=
  c == ' ' || c == '\t' || c == '\n' || c == '\r' || c == '\x0b' || c == '\x0c'

/-- `str.lower()` on one character (ASCII, as all the compared data is). -/
def pyToLower (c : Char) : Char :=
  if 65 ≤ c.toNat ∧ c.toNat ≤ 90 then Char.ofNat (c.toNat + 32) else c

/-- `str.lower()`. -/
def pyLower (s : String) : String := ⟨s.data.map pyToLower⟩

/-- Remove a maximal trailing run of characters satisfying `p`. -/
def dropTrailing (p : Char → Bool) : List Char → List Char
  | [] => []
  | c :: rest =>
    match dropTrailing p rest with
    | [] => if p c then [] else [c]
    | r => c :: r

/-- `str.strip(chars)` core: drop a maximal run at both ends. -/
def stripBoth (p : Char → Bool) (l : List Char) : List Char :=
  dropTrailing p (l.dropWhile p)

/-- `str.strip()`. -/
def pyStrip (s : String) : String := ⟨stripBoth isPySpace s.data⟩

/-- `str.strip("/")`. -/
def pyStripSlashes (s : String) : String := ⟨stripBoth (fun c => c == '/') s.data⟩

/-- `s.startswith(pre)`. -/
def pyStartsWith (s pre : String) : Bool := pre.data.isPrefixOf s.data

/-- Contiguous-sublist test. -/
def listSub (needle : List Char) : List Char → Bool
  | [] => needle.isEmpty
  | c :: t => needle.isPrefixOf (c :: t) || listSub needle t

/-- `needle in hay` for strings (contiguous substring). -/
def containsSub (needle hay : String) : Bool := listSub needle.data hay.data

/-- Split at every occurrence of `sep`, accumulating the current piece
reversed (structural version of `str.split(sep)`). -/
def splitOnCharAux (sep : Char) : List Char → List Char → List (List Char)
  | [], acc => [acc.reverse]
  | c :: rest, acc =>
    if c = sep then acc.reverse :: splitOnCharAux sep rest []
    else splitOnCharAux sep rest (c :: acc)

/-- `s.split(sep)` for a one-character separator (the only kind the
scraper uses): `"".split(sep)` is `[""]`, adjacent separators produce
empty pieces. -/
def pySplitChar (sep : Char) (s : String) : List String :=
  (splitOnCharAux sep s.data []).map (fun l => ⟨l⟩)

/-- Digit-run parser for `int(str)` (Python allows single underscores
between digits). `acc` is the value of the digits already read. -/
def pyDigitsAux (acc : Nat) : List Char → Option Nat
  | [] => Option.some acc
  | '_' :: c :: rest =>
    if c.isDigit then pyDigitsAux (acc * 10 + (c.toNat - 48)) rest else Option.none
  | c :: rest =>
    if c.isDigit then pyDigitsAux (acc * 10 + (c.toNat - 48)) rest else Option.none

/-- Nonempty digit run (underscores allowed inside). -/
def pyDigits : List Char → Option Nat
  | c :: rest => if c.isDigit then pyDigitsAux (c.toNat - 48) rest else Option.none
  | [] => Option.none

/-- `int(s)`: `None` models the `ValueError`. -/
def pyInt? (s : String) : Option Int :=
  match stripBoth isPySpace s.data with
  | '+' :: rest => (pyDigits rest).map Int.ofNat
  | '-' :: rest => (pyDigits rest).map (fun n => -(n : Int))
  | rest => (pyDigits rest).map Int.ofNat

/-! ### Model of `urllib.parse.urlparse` (the parts `security.py` and
`scraper.py` consume: scheme, netloc/hostname, path; params, query and
fragment are split off exactly as CPython does). -/

/-- Characters allowed in a URL scheme after the initial letter. -/
def isSchemeCh (c : Char) : Bool :=
  c.isAlpha || c.isDigit || c == '+' || c == '-' || c == '.'

/-- Scan for the `:` ending a scheme; fail on a non-scheme character
before it (CPython then treats the URL as scheme-less). -/
def schemeSplitAux (acc : List Char) : List Char → Option (List Char × List Char)
  | [] => Option.none
  | c :: rest =>
    if c = ':' then Option.some (acc.reverse, rest)
    else if isSchemeCh c then schemeSplitAux (c :: acc) rest
    else Option.none

/-- Split off a leading `scheme:` if present and well formed (first char a
letter), lowercasing it; otherwise the scheme is empty. -/
def splitScheme (cs : List Char) : String × List Char :=
  match cs with
  | [] => ("", cs)
  | c :: rest =>
    if c.isAlpha then
      match schemeSplitAux [c] rest with
      | Option.some (pre, r) => (⟨pre.map pyToLower⟩, r)
      | Option.none => ("", cs)
    else ("", cs)

/-- A netloc ends at the first `/`, `?` or `#`. -/
def notNetlocEnd (c : Char) : Bool := !(c == '/' || c == '?' || c == '#')

/-- Split a list at the first occurrence of `sep`; `none` when absent. -/
def splitFirst (sep : Char) : List Char → Option (List Char × List Char)
  | [] => Option.none
  | c :: rest =>
    if c = sep then Option.some ([], rest)
    else (splitFirst sep rest).map (fun p => (c :: p.1, p.2))

/-- The suffix after the last occurrence of `sep` (the whole list when
absent), plus the prefix up to and including that occurrence. -/
def splitLastAfter (sep : Char) (l : List Char) : List Char × List Char :=
  let suf := (l.reverse.takeWhile (fun c => c != sep)).reverse
  (l.take (l.length - suf.length), suf)

/-- CPython `_splitparams`: the `;params` of the last path segment. -/
def splitParams (l : List Char) : List Char × List Char :=
  if '/' ∈ l then
    let pre := (splitLastAfter '/' l).1
    let suf := (splitLastAfter '/' l).2
    match splitFirst ';' suf with
    | Option.some (a, b) => (pre ++ a, b)
    | Option.none => (l, [])
  else
    match splitFirst ';' l with
    | Option.some (a, b) => (a, b)
    | Option.none => (l, [])

/-- The result record of `urlparse`. -/
structure PyUrl where
  scheme : String
  netloc : String
  path : String
  params : String
  query : String
  fragment : String

/-- `urllib.parse.urlparse` on the character list. -/
def pyUrlparseList (cs : List Char) : PyUrl :=
  let sr := splitScheme cs
  let nr :=
    match sr.2 with
    | '/' :: '/' :: rest => (rest.takeWhile notNetlocEnd, rest.dropWhile notNetlocEnd)
    | r => ([], r)
  let fr :=
    match splitFirst '#' nr.2 with
    | Option.some (a, b) => (a, b)
    | Option.none => (nr.2, [])
  let qr :=
    match splitFirst '?' fr.1 with
    | Option.some (a, b) => (a, b)
    | Option.none => (fr.1, [])
  let pp := splitParams qr.1
  { scheme := sr.1, netloc := ⟨nr.1⟩, path := ⟨pp.1⟩, params := ⟨pp.2⟩,
    query := ⟨qr.2⟩, fragment := ⟨fr.2⟩ }

/-- `urllib.parse.urlparse`. -/
def pyUrlparse (s : String) : PyUrl := pyUrlparseList s.data

/-- The `.hostname` property: strip userinfo (after the last `@`), then a
bracketed IPv6 literal or the part before the port `:`, lowercased. -/
def hostFromNetloc (nl : List Char) : List Char :=
  let hostinfo := (nl.reverse.takeWhile (fun c => c != '@')).reverse
  let h :=
    if '[' ∈ hostinfo then
      ((hostinfo.dropWhile (fun c => c != '[')).drop 1).takeWhile (fun c => c != ']')
    else hostinfo.takeWhile (fun c => c != ':')
  h.map pyToLower

/-- `parsed.hostname`, with `""` standing for CPython's `None`/empty (the
caller only checks falsiness). -/
def pyHostname (u : PyUrl) : String := ⟨hostFromNetloc u.netloc.data⟩

/-! ### `api/_lib/config.py` -/

/-- `HIBID_BASE_URL`. -/
def HIBID_BASE_URL : String := "https://hibid.com"

/-- `ALLOWED_DOMAINS`. -/
def ALLOWED_DOMAINS : List String := ["hibid.com", "www.hibid.com"]

/-- `ROOT_QUERY_KEY`. -/
def ROOT_QUERY_KEY : String := "ROOT_QUERY"

/-- `MAX_PAGE_NUMBER`. -/
def MAX_PAGE_NUMBER : Int := 31

/-! ### `api/_lib/security.py` -/

/-- The classification of one resolved address, as computed by
`ipaddress.ip_address(...)`; DNS itself is an input oracle of type
`String → Option (List ResolvedAddr)`, `none` standing for a resolution
failure (`socket.gaierror` / `ValueError` / `OSError`). -/
structure ResolvedAddr where
  is_private : Bool
  is_loopback : Bool
  is_reserved : Bool
  is_link_local : Bool

/-- The blocked-range test applied to each resolved address. -/
def addrBlocked (a : ResolvedAddr) : Bool :=
  a.is_private || a.is_loopback || a.is_reserved || a.is_link_local

/-- `_is_private_host` over the resolver oracle. -/
def _is_private_host (resolve : String → Option (List ResolvedAddr)) (hostname : String) : Bool :=
  if hostname = "localhost" ∨ hostname = "127.0.0.1" ∨ hostname = "::1" ∨ hostname = "0.0.0.0" then
    true
  else
    match resolve hostname with
    | Option.none => true
    | Option.some addrs => addrs.any addrBlocked

/-- The relative-path / absolute-url branch of `validate_url`
(`COMPANY_PROFILE_PATH_PREFIX` is `"/company/"`). -/
def fullUrlOf (raw : String) : Option String :=
  if pyStartsWith raw "/company/" then Option.some (HIBID_BASE_URL ++ raw)
  else if pyStartsWith raw "http://" || pyStartsWith raw "https://" then Option.some raw
  else Option.none

/-- `validate_url`; the input is `Option String` so that Python `None`
is representable.  The source's sequence of early `return None` checks is
the chain of guards below, in source order. -/
def validate_url (resolve : String → Option (List ResolvedAddr)) (raw? : Option String) :
    Option String :=
  raw?.bind fun raw0 =>
    if raw0 = "" then Option.none
    else
      (fullUrlOf (pyStrip raw0)).bind fun full =>
        if !((pyUrlparse full).scheme == "http" || (pyUrlparse full).scheme == "https") then
          Option.none
        else if pyHostname (pyUrlparse full) = "" then Option.none
        else if !(ALLOWED_DOMAINS.contains (pyLower (pyHostname (pyUrlparse full)))) then
          Option.none
        else if !(pyStartsWith (pyUrlparse full).path "/company/") then Option.none
        else if (pySplitChar '/' (pyStripSlashes (pyUrlparse full).path)).length < 2 then
          Option.none
        else if (((pySplitChar '/' (pyStripSlashes (pyUrlparse full).path)).get? 1).bind
            pyInt?).isNone then Option.none
        else if _is_private_host resolve (pyLower (pyHostname (pyUrlparse full))) then
          Option.none
        else Option.some ("https://" ++ pyLower (pyHostname (pyUrlparse full)) ++
          (pyUrlparse full).path)

/-- The host that `validate_url` would submit to the private-host check:
the prefix of `validate_url` up to the hostname computation. -/
def candidateHost (raw0 : String) : Option String :=
  if raw0 = "" then Option.none
  else
    match fullUrlOf (pyStrip raw0) with
    | Option.none => Option.none
    | Option.some full =>
      let h := pyHostname (pyUrlparse full)
      if h = "" then Option.none else Option.some (pyLower h)

/-! ### `api/_lib/scraper.py` -/

/-- Keep-set of `re.sub(r"[^a-z0-9\s-]", "", slug)`: lowercase letters,
digits, whitespace and hyphen survive. -/
def isSlugKeep (c : Char) : Bool :=
  (decide (97 ≤ c.toNat) && decide (c.toNat ≤ 122)) ||
  (decide (48 ≤ c.toNat) && decide (c.toNat ≤ 57)) ||
  isPySpace c || c == '-'

/-- `re.sub(p+, rep, s)` for a single-character-class `p`: each maximal
run of `p`-characters becomes one `rep`.  The flag records whether we are
inside a run already begun. -/
def subRuns (p : Char → Bool) (rep : Char) : Bool → List Char → List Char
  | _, [] => []
  | inRun, c :: rest =>
    if p c then
      if inRun then subRuns p rep true rest
      else rep :: subRuns p rep true rest
    else c :: subRuns p rep false rest

/-- `_make_slug`: lower, strip, drop chars outside `[a-z0-9\s-]`, turn
whitespace runs into `-`, collapse `-` runs, strip `-`. -/
def _make_slug (name : String) : String :=
  let l1 := name.data.map pyToLower
  let l2 := stripBoth isPySpace l1
  let l3 := l2.filter isSlugKeep
  let l4 := subRuns isPySpace '-' false l3
  let l5 := subRuns (fun c => c == '-') '-' false l4
  ⟨stripBoth (fun c => c == '-') l5⟩

/-- `_extract_company_id_from_path`: second segment of the `/`-stripped
path, when it parses as an int. -/
def _extract_company_id_from_path (p : String) : Option Int :=
  ((pySplitChar '/' (pyStripSlashes p)).get? 1).bind pyInt?

/-- `_extract_company_id_from_url`. -/
def _extract_company_id_from_url (url : String) : Option Int :=
  _extract_company_id_from_path (pyUrlparse url).path

/-- `_extract_auctioneers_from_apollo` (`AUCTIONEER_REF_PREFIX` is
`"Auctioneer:"`): collect values of prefixed keys that are dicts with a
truthy `id`, keyed by that id, overwriting duplicates. -/
def _extract_auctioneers_from_apollo (st : List (String × PyVal)) : List (PyVal × PyVal) :=
  st.foldl
    (fun acc kv =>
      if pyStartsWith kv.1 "Auctioneer:" && kv.2.isDict then
        let company_id := pyGet kv.2 "id"
        if company_id.truthy then pyDictInsert acc company_id kv.2 else acc
      else acc)
    []

/-- `_format_auctioneer`: the list-view record, as a Python dict in the
source's key order. -/
def _format_auctioneer (a : List (String × PyVal)) : PyVal :=
  let company_id := (lookupStr a "id").getD (.str "")
  let name := (lookupStr a "name").getD (.str "")
  let city := pyOrEmptyStr ((lookupStr a "city").getD (.str ""))
  let state := pyOrEmptyStr ((lookupStr a "state").getD (.str ""))
  let postal_code := pyOrEmptyStr ((lookupStr a "postalCode").getD (.str ""))
  let country := pyOrEmptyStr ((lookupStr a "country").getD (.str ""))
  let address := pyOrEmptyStr ((lookupStr a "address").getD (.str ""))
  let location_parts :=
    ([city, state, country].map PyVal.asStr).filter (fun p => !(pyStrip p).isEmpty)
  let location := String.intercalate ", " location_parts
  let slug := _make_slug name.asStr
  let profile_url := HIBID_BASE_URL ++ "/company/" ++ pyFormat company_id ++ "/" ++ slug
  .dict
    [("company_id", company_id), ("name", name), ("location", .str location),
     ("address", address), ("city", city), ("state", state),
     ("postal_code", postal_code), ("country", country),
     ("profile_url", .str profile_url)]

/-- `_format_auctioneer_detail`: the list record plus contact fields; a
nonempty caller-supplied url overrides `profile_url` in place. -/
def _format_auctioneer_detail (a : List (String × PyVal)) (profile_url : String) : PyVal :=
  let base := (_format_auctioneer a).asDictD
  let base := base ++
    [("phone", pyOrEmptyStr ((lookupStr a "phone").getD (.str ""))),
     ("email", pyOrEmptyStr ((lookupStr a "email").getD (.str ""))),
     ("website", pyOrEmptyStr ((lookupStr a "internetAddress").getD (.str ""))),
     ("fax", pyOrEmptyStr ((lookupStr a "fax").getD (.str "")))]
  .dict (if profile_url.isEmpty then base else dictSetStr base "profile_url" (.str profile_url))

/-- `apollo_state.get(ROOT_QUERY_KEY, {})` viewed as items.  Junk `[]` when
the key holds a non-dict (Python would raise on `.items()`). -/
def rootItems (st : List (String × PyVal)) : List (String × PyVal) :=
  match lookupStr st ROOT_QUERY_KEY with
  | Option.none => []
  | Option.some v => v.asDictD

/-- The `ROOT_QUERY` scan of `fetch_company_list_from_apollo_state`:
first key containing `"auctioneerSearch"` whose value is a dict. -/
def searchScan : List (String × PyVal) → Option PyVal
  | [] => Option.none
  | kv :: rest =>
    if containsSub "auctioneerSearch" kv.1 && kv.2.isDict then Option.some kv.2
    else searchScan rest

/-- The loop over `results` collecting ids from `{"__ref": "Auctioneer:<id>"}`
entries; split/parse failures are skipped (`except ... pass`). -/
def orderedIdsLoop : List PyVal → List Int
  | [] => []
  | ref :: rest =>
    match ref with
    | .dict fs =>
      match lookupStr fs "__ref" with
      | Option.some rv =>
        match (pySplitChar ':' (PyVal.asStr rv)).get? 1 with
        | Option.some part =>
          match pyInt? part with
          | Option.some aid => aid :: orderedIdsLoop rest
          | Option.none => orderedIdsLoop rest
        | Option.none => orderedIdsLoop rest
      | Option.none => orderedIdsLoop rest
    | _ => orderedIdsLoop rest

/-- The ordered-build loop: resolve each id against the collected
auctioneers, dropping unresolved ids. -/
def companiesLoop (aucs : List (PyVal × PyVal)) : List Int → List PyVal
  | [] => []
  | aid :: rest =>
    match dictLookupPy aucs (.int aid) with
    | Option.some a => _format_auctioneer a.asDictD :: companiesLoop aucs rest
    | Option.none => companiesLoop aucs rest

/-- Result shape of `fetch_company_list_from_apollo_state`. -/
structure ApolloListResult where
  companies : List PyVal
  total_count : PyVal

/-- `fetch_company_list_from_apollo_state` after the fetch/parse layer:
`apolloState` is the oracle for `_extract_apollo_state` applied to the
fetched company-search markup (`none` = fetch failure or state absent).
The `page` argument is accepted and, as in the source, never used. -/
def fetch_company_list_from_apollo_state (page : Int)
    (apolloState : Option (List (String × PyVal))) : Option ApolloListResult :=
  match apolloState with
  | Option.none => Option.none
  | Option.some st =>
    if st.isEmpty then Option.none
    else
      let aucs := _extract_auctioneers_from_apollo st
      if aucs.isEmpty then Option.none
      else
        match searchScan (rootItems st) with
        | Option.some v =>
          let tc := pyGet v "totalCount"
          let ids := orderedIdsLoop (pyGetD v "results" (.list [])).asListD
          if ids.isEmpty then
            Option.some ⟨aucs.map (fun p => _format_auctioneer p.2.asDictD), tc⟩
          else Option.some ⟨companiesLoop aucs ids, tc⟩
        | Option.none =>
          Option.some ⟨aucs.map (fun p => _format_auctioneer p.2.asDictD), .none⟩

/-- Truthiness of `target_id` (an `int | None`). -/
def targetTruthy : Option Int → Bool
  | Option.some t => t != 0
  | Option.none => false

/-- `target_id` as a `PyVal` for the `==` comparison. -/
def pyOfTarget : Option Int → PyVal
  | Option.some t => .int t
  | Option.none => .none

/-- The entity pass of `_extract_details_from_apollo`: one walk over the
state; an exact id match returns when a truthy target exists, the
phone/email heuristic returns only when none does. -/
def detailEntityLoop (target : Option Int) : List (String × PyVal) → Option PyVal
  | [] => Option.none
  | kv :: rest =>
    if !(pyStartsWith kv.1 "Auctioneer:") then detailEntityLoop target rest
    else if !kv.2.isDict then detailEntityLoop target rest
    else
      if targetTruthy target && pyEqV (pyGet kv.2 "id") (pyOfTarget target) then
        Option.some kv.2
      else if !(targetTruthy target) &&
          ((pyGet kv.2 "phone").truthy || (pyGet kv.2 "email").truthy) then
        Option.some kv.2
      else detailEntityLoop target rest

/-- The `ROOT_QUERY` pass of `_extract_details_from_apollo`: first key
containing `"auctioneer"` (case-insensitive) holding a dict whose `__ref`
resolves to a truthy dict in the state. -/
def rootScanLoop (st : List (String × PyVal)) : List (String × PyVal) → Option PyVal
  | [] => Option.none
  | kv :: rest =>
    if containsSub "auctioneer" (pyLower kv.1) && kv.2.isDict then
      if pyStartsWith ((pyGetD kv.2 "__ref" (.str "")).asStr) "Auctioneer:" then
        if ((lookupStr st ((pyGetD kv.2 "__ref" (.str "")).asStr)).getD .none).truthy &&
            ((lookupStr st ((pyGetD kv.2 "__ref" (.str "")).asStr)).getD .none).isDict then
          Option.some ((lookupStr st ((pyGetD kv.2 "__ref" (.str "")).asStr)).getD .none)
        else rootScanLoop st rest
      else rootScanLoop st rest
    else rootScanLoop st rest

/-- `_extract_details_from_apollo` over the decoded state (`[]`, being
falsy, hits the `if not apollo_state` guard). -/
def _extract_details_from_apollo (st : List (String × PyVal)) (url : String) : Option PyVal :=
  if st.isEmpty then Option.none
  else
    let target := _extract_company_id_from_url url
    match detailEntityLoop target st with
    | Option.some v => Option.some (_format_auctioneer_detail v.asDictD url)
    | Option.none =>
      (rootScanLoop st (rootItems st)).map (fun a => _format_auctioneer_detail a.asDictD url)

/-- An `<a>` inside a table cell: `get("href", "")` and stripped text. -/
structure Anchor where
  href : String
  text : String

/-- A `<td>`: its first anchor, if any, and its stripped text. -/
structure Cell where
  anchor : Option Anchor
  text : String

/-- One output record of the HTML list fallback, in the source's key
order. -/
def mkHtmlCompany (link : Anchor) (location : String) : PyVal :=
  .dict
    [("company_id",
      match _extract_company_id_from_path link.href with
      | Option.some n => .int n
      | Option.none => .none),
     ("name", .str link.text),
     ("location", .str location),
     ("profile_url",
      .str (if pyStartsWith link.href "/" then HIBID_BASE_URL ++ link.href else link.href))]

/-- The row loop of `fetch_company_list_from_html`: rows with fewer than
two cells or no anchor in the first cell are skipped; an href already in
`seen` is skipped; otherwise the record is emitted and the href
remembered. -/
def htmlRowsLoop (seen : List String) : List (List Cell) → List PyVal
  | [] => []
  | row :: rest =>
    match row with
    | c0 :: c1 :: _ =>
      match c0.anchor with
      | Option.none => htmlRowsLoop seen rest
      | Option.some link =>
        if link.href ∈ seen then htmlRowsLoop seen rest
        else mkHtmlCompany link c1.text :: htmlRowsLoop (link.href :: seen) rest
    | _ => htmlRowsLoop seen rest

/-- `fetch_company_list_from_html` after the fetch/soup layer: `table` is
the oracle for the located `#companySearch` table as its rows of cells
(`none` = fetch failure or table absent).  The first row is the header. -/
def fetch_company_list_from_html (table : Option (List (List Cell))) : Option (List PyVal) :=
  match table with
  | Option.none => Option.none
  | Option.some rows => Option.some (htmlRowsLoop [] (rows.drop 1))

/-! ### `api/get_company_list.py` -/

/-- The response as the handler serializes it: an error status+message or
the success payload fields. -/
inductive ListResp where
  | err (status : Nat) (msg : String)
  | ok (page : Int) (page_size : Nat) (total_count : PyVal) (source : String)
      (companies : List PyVal)

/-- The HTML-fallback arm of the handler plus the `if not companies`
502 check (`html_result` truthy means the fetch returned a dict). -/
def htmlFallback (page : Int) (htmlResult : Option (List PyVal)) : ListResp :=
  match htmlResult with
  | Option.some companies =>
    if companies.isEmpty then .err 502 "Failed to extract company data from HiBid."
    else .ok page companies.length PyVal.none "html_table" companies
  | Option.none => .err 502 "Failed to extract company data from HiBid."

/-- `handler.do_GET` of the list endpoint over the extraction oracles:
parse `page` (default `"1"`; `ValueError` becomes the 400 catch-all),
range-check it, then try apollo state and fall back to the HTML table. -/
def handleList (pageParam : Option String) (apolloState : Option (List (String × PyVal)))
    (htmlResult : Option (List PyVal)) : ListResp :=
  match pyInt? (pageParam.getD "1") with
  | Option.none => .err 400 "Invalid parameter: page"
  | Option.some page =>
    if page < 1 ∨ page > MAX_PAGE_NUMBER then
      .err 400 "Page must be between 1 and 31."
    else
      match fetch_company_list_from_apollo_state page apolloState with
      | Option.some r =>
        if !r.companies.isEmpty then
          .ok page r.companies.length r.total_count "apollo_state" r.companies
        else htmlFallback page htmlResult
      | Option.none => htmlFallback page htmlResult

/-- The success payload with the echoed `page` field erased, for stating
page-independence. -/
def erasePage : ListResp → ListResp
  | .ok _ ps tc src cs => .ok 0 ps tc src cs
  | e => e

/-! ### Specification-side helpers used only in theorem statements -/

/-- Keep-first deduplication by anchor href, for stating the HTML list
extractor's behaviour. -/
def dedupByHref (seen : List String) : List (Anchor × String) → List (Anchor × String)
  | [] => []
  | e :: rest =>
    if e.1.href ∈ seen then dedupByHref seen rest
    else e :: dedupByHref (e.1.href :: seen) rest

/-- The id named by one search-result reference entry, when it parses. -/
def refIdOf (r : PyVal) : Option Int :=
  match r with
  | .dict fs =>
    (lookupStr fs "__ref").bind fun rv =>
      ((pySplitChar ':' (PyVal.asStr rv)).get? 1).bind pyInt?
  | _ => Option.none

/-- Two adjacent hyphens somewhere in the list. -/
def hasDouble : List Char → Bool
  | a :: b :: t => (a == '-' && b == '-') || hasDouble (b :: t)
  | _ => false

/-- ASCII alphanumeric, for the "entirely non-alphanumeric name" clause. -/
def isAsciiAlnum (c : Char) : Bool :=
  (decide (65 ≤ c.toNat) && decide (c.toNat ≤ 90)) ||
  (decide (97 ≤ c.toNat) && decide (c.toNat ≤ 122)) ||
  (decide (48 ≤ c.toNat) && decide (c.toNat ≤ 57))

/-- Output alphabet of the slug: `[a-z0-9-]`. -/
def isSlugOut (c : Char) : Bool :=
  (decide (97 ≤ c.toNat) && decide (c.toNat ≤ 122)) ||
  (decide (48 ≤ c.toNat) && decide (c.toNat ≤ 57)) || c == '-'

/-! ## Theorems -/

/-- The row loop is keep-first dedup by href over the eligible rows, in
document order. -/
theorem htmlRowsLoop_eq (rows : List (List Cell)) : ∀ seen,
    htmlRowsLoop seen rows =
      (dedupByHref seen (rows.filterMap fun row =>
        match row with
        | c0 :: c1 :: _ => c0.anchor.map (fun a => (a, c1.text))
        | _ => Option.none)).map (fun e => mkHtmlCompany e.1 e.2) := by
  induction rows with
  | nil => intro seen; rfl
  | cons row rest ih =>
    intro seen
    match row with
    | [] => simpa [htmlRowsLoop, List.filterMap_cons] using ih seen
    | [c0] => simpa [htmlRowsLoop, List.filterMap_cons] using ih seen
    | c0 :: c1 :: t =>
      cases h : c0.anchor with
      | none => simpa [htmlRowsLoop, h, List.filterMap_cons] using ih seen
      | some link =>
        by_cases hs : link.href ∈ seen
        · simpa [htmlRowsLoop, h, hs, List.filterMap_cons, dedupByHref] using ih seen
        · simpa [htmlRowsLoop, h, hs, List.filterMap_cons, dedupByHref] using
            ih (link.href :: seen)

/-- C8: for every table, the HTML list fallback skips the first (header)
row, skips rows without an anchored first cell (or without two cells),
keeps only the first occurrence of each href, derives the id from the
href's second path segment (absent when unparseable), prefixes the site
base URL exactly when the href is root-relative, and preserves document
row order after deduplication. -/
theorem C8_html_list_fallback (rows : List (List Cell)) :
    fetch_company_list_from_html (Option.some rows) =
      Option.some
        ((dedupByHref []
            ((rows.drop 1).filterMap fun row =>
              match row with
              | c0 :: c1 :: _ => c0.anchor.map (fun a => (a, c1.text))
              | _ => Option.none)).map fun e =>
          PyVal.dict
            [("company_id",
              match _extract_company_id_from_path e.1.href with
              | Option.some n => .int n
              | Option.none => .none),
             ("name", .str e.1.text),
             ("location", .str e.2),
             ("profile_url",
              .str (if pyStartsWith e.1.href "/" then HIBID_BASE_URL ++ e.1.href
                    else e.1.href))]) := by
  show Option.some (htmlRowsLoop [] (rows.drop 1)) = _
  rw [htmlRowsLoop_eq]
  rfl

/-- The `ROOT_QUERY` search loop is a first-match scan. -/
theorem searchScan_eq (l : List (String × PyVal)) :
    searchScan l =
      (l.find? fun kv => containsSub "auctioneerSearch" kv.1 && kv.2.isDict).map
        (fun kv => kv.2) := by
  induction l with
  | nil => rfl
  | cons kv rest ih =>
    by_cases h : (containsSub "auctioneerSearch" kv.1 && kv.2.isDict) = true
    · simp [searchScan, List.find?_cons, h]
    · simp only [Bool.not_eq_true] at h
      simp [searchScan, List.find?_cons, h, ih]

/-- The id-collection loop over `results` is a `filterMap`. -/
theorem orderedIdsLoop_eq (l : List PyVal) : orderedIdsLoop l = l.filterMap refIdOf := by
  induction l with
  | nil => rfl
  | cons ref rest ih =>
    rw [List.filterMap_cons]
    match ref with
    | .none | .bool _ | .int _ | .str _ | .list _ => simpa [orderedIdsLoop, refIdOf] using ih
    | .dict fs =>
      cases h1 : lookupStr fs "__ref" with
      | none => simpa [orderedIdsLoop, refIdOf, h1] using ih
      | some rv =>
        cases h2 : (pySplitChar ':' (PyVal.asStr rv))[1]? with
        | none => simpa [orderedIdsLoop, refIdOf, h1, h2] using ih
        | some part =>
          cases h3 : pyInt? part with
          | none => simpa [orderedIdsLoop, refIdOf, h1, h2, h3] using ih
          | some aid => simpa [orderedIdsLoop, refIdOf, h1, h2, h3] using ih

/-- The ordered-build loop is a resolving `filterMap`: each id is looked
up in the collected entities, unresolved ids are dropped, order kept. -/
theorem companiesLoop_eq (aucs : List (PyVal × PyVal)) (ids : List Int) :
    companiesLoop aucs ids =
      ids.filterMap fun aid =>
        (dictLookupPy aucs (.int aid)).map fun a => _format_auctioneer a.asDictD := by
  induction ids with
  | nil => rfl
  | cons aid rest ih =>
    rw [List.filterMap_cons]
    cases h : dictLookupPy aucs (.int aid) with
    | none => simpa [companiesLoop, h] using ih
    | some a => simpa [companiesLoop, h] using ih

/-- C2 (amended): when the first `auctioneerSearch` entry of the query
root lists at least one parseable id, the extractor returns exactly the
records of those ids that resolve against the entity mapping, in listed
order, silently dropping unresolved ids; when no id is recovered it
instead falls back to all collected entities in traversal order. -/
theorem C2_ordered_list_extraction (page : Int) (st : List (String × PyVal)) :
    fetch_company_list_from_apollo_state page (Option.some st) =
      if st.isEmpty then Option.none
      else
        let aucs := _extract_auctioneers_from_apollo st
        if aucs.isEmpty then Option.none
        else
          match ((rootItems st).find? fun kv =>
              containsSub "auctioneerSearch" kv.1 && kv.2.isDict) with
          | Option.some kv =>
            let ids := ((pyGetD kv.2 "results" (.list [])).asListD).filterMap refIdOf
            Option.some
              ⟨(if ids.isEmpty then aucs.map (fun p => _format_auctioneer p.2.asDictD)
                else ids.filterMap fun aid =>
                  (dictLookupPy aucs (.int aid)).map fun a => _format_auctioneer a.asDictD),
               pyGet kv.2 "totalCount"⟩
          | Option.none =>
            Option.some ⟨aucs.map (fun p => _format_auctioneer p.2.asDictD), .none⟩ := by
  simp only [fetch_company_list_from_apollo_state, searchScan_eq]
  by_cases h0 : st.isEmpty
  · simp [h0]
  · simp only [h0, if_false]
    by_cases h1 : (_extract_auctioneers_from_apollo st).isEmpty
    · simp [h1]
    · simp only [h1, if_false]
      cases hf : ((rootItems st).find? fun kv =>
          containsSub "auctioneerSearch" kv.1 && kv.2.isDict) with
      | none => simp [hf]
      | some kv =>
        simp only [hf, Option.map_some, orderedIdsLoop_eq, companiesLoop_eq]
        by_cases hc :
            ((pyGetD kv.2 "results" (PyVal.list [])).asListD.filterMap refIdOf).isEmpty
        · simp [hc]
        · simp [hc]

/-- C2 counterexample: a state whose search root lists zero ids (M = 0)
over one collected entity (N = 1).  The claim demands the empty record
list; the code emits all N entities through its unordered fallback. -/
theorem C2_counterexample :
    ((pyGetD (PyVal.dict [("totalCount", .int 100), ("results", .list [])])
        "results" (.list [])).asListD).filterMap refIdOf = [] ∧
    (Option.map (fun r => r.companies.length)
      (fetch_company_list_from_apollo_state 1 (Option.some
        [("Auctioneer:7", .dict [("id", .int 7), ("name", .str "Acme")]),
         ("ROOT_QUERY", .dict
           [("auctioneerSearch({})", .dict
             [("totalCount", .int 100), ("results", .list [])])])]))) =
      Option.some 1 := ⟨rfl, rfl⟩

/-- `==` is symmetric on `Int`. -/
theorem intBeqComm (x y : Int) : (x == y) = (y == x) := by
  by_cases h : x = y
  · subst h; rfl
  · rw [beq_eq_false_iff_ne.mpr h, beq_eq_false_iff_ne.mpr (Ne.symm h)]

/-- `==` is symmetric on `String`. -/
theorem strBeqComm (s t : String) : (s == t) = (t == s) := by
  by_cases h : s = t
  · subst h; rfl
  · rw [beq_eq_false_iff_ne.mpr h, beq_eq_false_iff_ne.mpr (Ne.symm h)]

/-- Python `==` on scalars is symmetric. -/
theorem pyEqV_symm (a b : PyVal) : pyEqV a b = pyEqV b a := by
  unfold pyEqV
  cases ha : pyNumView a <;> cases hb : pyNumView b <;> try rfl
  · cases a <;> cases b <;> simp_all [pyNumView]
    exact eq_comm
  · exact intBeqComm ..

/-- Python `==` on scalars is transitive. -/
theorem pyEqV_trans {a b c : PyVal} (h1 : pyEqV a b = true) (h2 : pyEqV b c = true) :
    pyEqV a c = true := by
  unfold pyEqV at *
  cases a <;> cases b <;> cases c <;> simp_all [pyNumView]

/-- Lookup across an appended dict tail. -/
theorem dictLookupPy_append (m m' : List (PyVal × PyVal)) (q : PyVal) :
    dictLookupPy (m ++ m') q =
      match dictLookupPy m q with
      | Option.some x => Option.some x
      | Option.none => dictLookupPy m' q := by
  induction m with
  | nil => rfl
  | cons p rest ih =>
    by_cases h : pyEqV p.1 q = true <;> simp [dictLookupPy, h, ih]

/-- A dict with no key equal to `k` has no key equal to anything equal to
`k` either. -/
theorem dictLookupPy_none_of_no_key {k q : PyVal} (hkq : pyEqV k q = true) :
    ∀ m : List (PyVal × PyVal), (m.any fun p => pyEqV p.1 k) = false →
      dictLookupPy m q = Option.none := by
  intro m
  induction m with
  | nil => intro _; rfl
  | cons p rest ih =>
    intro hany
    simp only [List.any_cons, Bool.or_eq_false_iff] at hany
    have hpq : pyEqV p.1 q = false := by
      by_contra hc
      simp only [Bool.not_eq_false] at hc
      have : pyEqV p.1 k = true := pyEqV_trans hc (by rw [pyEqV_symm]; exact hkq)
      simp [this] at hany
    simp [dictLookupPy, hpq, ih hany.2]

/-- Lookup after replacing the values of all keys equal to `k`. -/
theorem dictLookupPy_map_replace (k v q : PyVal) (m : List (PyVal × PyVal)) :
    dictLookupPy (m.map fun p => if pyEqV p.1 k then (p.1, v) else p) q =
      if pyEqV k q then
        (if m.any (fun p => pyEqV p.1 k) then Option.some v else dictLookupPy m q)
      else dictLookupPy m q := by
  induction m with
  | nil => by_cases hkq : pyEqV k q = true <;> simp [hkq]
  | cons p rest ih =>
    by_cases hpk : pyEqV p.1 k = true
    · by_cases hkq : pyEqV k q = true
      · have hpq : pyEqV p.1 q = true := pyEqV_trans hpk hkq
        simp [dictLookupPy, hpk, hpq, hkq]
      · have hpq : pyEqV p.1 q = false := by
          by_contra hc
          simp only [Bool.not_eq_false] at hc
          have : pyEqV k q = true :=
            pyEqV_trans (by rw [pyEqV_symm]; exact hpk) hc
          simp [this] at hkq
        simp [dictLookupPy, hpk, hpq, hkq, ih]
    · by_cases hpq : pyEqV p.1 q = true
      · have hkq : pyEqV k q = false := by
          by_contra hc
          simp only [Bool.not_eq_false] at hc
          have : pyEqV p.1 k = true :=
            pyEqV_trans hpq (by rw [pyEqV_symm]; exact hc)
          simp [this] at hpk
        simp [dictLookupPy, hpk, hpq, hkq]
      · have hpk' : pyEqV p.1 k = false := by
          simpa using hpk
        by_cases hkq : pyEqV k q = true <;>
          simp only [List.map_cons, hpk', if_neg, dictLookupPy, Bool.false_eq_true,
            ite_false, hpq, ih, hkq, List.any_cons, Bool.false_or, ite_true]

/-- `d[k] = v` then lookup: the inserted value answers every key equal to
`k`; other keys are unaffected. -/
theorem dictLookupPy_insert (m : List (PyVal × PyVal)) (k v q : PyVal) :
    dictLookupPy (pyDictInsert m k v) q =
      if pyEqV k q then Option.some v else dictLookupPy m q := by
  unfold pyDictInsert
  by_cases hany : (m.any fun p => pyEqV p.1 k) = true
  · rw [if_pos hany, dictLookupPy_map_replace]
    by_cases hkq : pyEqV k q = true <;> simp [hkq, hany]
  · simp only [Bool.not_eq_true] at hany
    rw [if_neg (by simp [hany]), dictLookupPy_append]
    by_cases hkq : pyEqV k q = true
    · rw [dictLookupPy_none_of_no_key hkq m hany]
      simp [dictLookupPy, hkq]
    · cases hl : dictLookupPy m q <;> simp [dictLookupPy, hkq, hl]

/-- Generalized-accumulator form of the entity-collection walk. -/
theorem extractAuctioneersAux (st : List (String × PyVal)) : ∀ acc (id : PyVal),
    dictLookupPy
      (st.foldl
        (fun acc kv =>
          if pyStartsWith kv.1 "Auctioneer:" && kv.2.isDict then
            let company_id := pyGet kv.2 "id"
            if company_id.truthy then pyDictInsert acc company_id kv.2 else acc
          else acc)
        acc) id =
      match ((st.filter fun kv =>
          pyStartsWith kv.1 "Auctioneer:" && kv.2.isDict &&
            (pyGet kv.2 "id").truthy).reverse.find?
          fun kv => pyEqV (pyGet kv.2 "id") id) with
      | Option.some kv => Option.some kv.2
      | Option.none => dictLookupPy acc id := by
  induction st with
  | nil => intro acc id; rfl
  | cons kv rest ih =>
    intro acc id
    by_cases h1 : (pyStartsWith kv.1 "Auctioneer:" && kv.2.isDict) = true
    · by_cases h2 : (pyGet kv.2 "id").truthy = true
      · rw [List.foldl_cons]
        have hstep :
            (if pyStartsWith kv.1 "Auctioneer:" && kv.2.isDict then
              if (pyGet kv.2 "id").truthy then pyDictInsert acc (pyGet kv.2 "id") kv.2
              else acc
            else acc) = pyDictInsert acc (pyGet kv.2 "id") kv.2 := by
          rw [if_pos h1, if_pos h2]
        rw [hstep, ih]
        have hfil :
            ((kv :: rest).filter fun kv =>
              pyStartsWith kv.1 "Auctioneer:" && kv.2.isDict && (pyGet kv.2 "id").truthy) =
            kv :: (rest.filter fun kv =>
              pyStartsWith kv.1 "Auctioneer:" && kv.2.isDict && (pyGet kv.2 "id").truthy) := by
          rw [List.filter_cons_of_pos (by simp [h1, h2])]
        rw [hfil, List.reverse_cons, List.find?_append]
        cases hf : ((rest.filter fun kv =>
            pyStartsWith kv.1 "Auctioneer:" && kv.2.isDict &&
              (pyGet kv.2 "id").truthy).reverse.find?
            fun kv => pyEqV (pyGet kv.2 "id") id) with
        | some e => simp
        | none =>
          simp only [Option.none_or]
          rw [dictLookupPy_insert]
          by_cases hm : pyEqV (pyGet kv.2 "id") id = true
          · simp [List.find?_cons, hm]
          · have hm' : pyEqV (pyGet kv.2 "id") id = false := by simpa using hm
            simp [List.find?_cons, hm']
      · rw [List.foldl_cons]
        have hstep :
            (if pyStartsWith kv.1 "Auctioneer:" && kv.2.isDict then
              if (pyGet kv.2 "id").truthy then pyDictInsert acc (pyGet kv.2 "id") kv.2
              else acc
            else acc) = acc := by
          rw [if_pos h1, if_neg (by simpa using h2)]
        rw [hstep, ih, List.filter_cons_of_neg (by simp [h2])]
    · rw [List.foldl_cons]
      have hstep :
          (if pyStartsWith kv.1 "Auctioneer:" && kv.2.isDict then
            if (pyGet kv.2 "id").truthy then pyDictInsert acc (pyGet kv.2 "id") kv.2
            else acc
          else acc) = acc := by
        rw [if_neg (by simpa using h1)]
      have h1' : (pyStartsWith kv.1 "Auctioneer:" && kv.2.isDict) = false := by
        simpa using h1
      rw [hstep, ih, List.filter_cons_of_neg (by simp [h1'])]

/-- C3 (amended): entity recovery answers, for every id, the value of the
last traversed entry whose key has the `Auctioneer:` prefix, whose value
is a mapping and whose `id` field is truthy (so non-null, non-zero and
non-empty) and equals the queried id — last write wins, and nothing else
is collected. -/
theorem C3_entity_collection (st : List (String × PyVal)) (id : PyVal) :
    dictLookupPy (_extract_auctioneers_from_apollo st) id =
      ((st.filter fun kv =>
          pyStartsWith kv.1 "Auctioneer:" && kv.2.isDict &&
            (pyGet kv.2 "id").truthy).reverse.find?
        fun kv => pyEqV (pyGet kv.2 "id") id).map fun kv => kv.2 := by
  unfold _extract_auctioneers_from_apollo
  rw [extractAuctioneersAux st [] id]
  cases hf : ((st.filter fun kv =>
      pyStartsWith kv.1 "Auctioneer:" && kv.2.isDict &&
        (pyGet kv.2 "id").truthy).reverse.find?
      fun kv => pyEqV (pyGet kv.2 "id") id) with
  | some e => simp
  | none => simp [dictLookupPy]

/-- C3 counterexample: an entity whose `id` is the non-null integer `0`
is not collected (the code tests truthiness, not non-nullness). -/
theorem C3_counterexample :
    _extract_auctioneers_from_apollo [("Auctioneer:1", .dict [("id", .int 0)])] = [] ∧
    pyGet (.dict [("id", .int 0)]) "id" = .int 0 ∧
    (PyVal.int 0 = PyVal.none → False) :=
  ⟨rfl, rfl, fun h => PyVal.noConfusion h⟩

/-- The single entity pass is a first-match search over the
`Auctioneer:`-prefixed dict entries, whose predicate is the exact-id
match when a truthy target id exists and the phone/email heuristic only
when none does. -/
theorem detailEntityLoop_eq (target : Option Int) (l : List (String × PyVal)) :
    detailEntityLoop target l =
      ((l.filter fun kv => pyStartsWith kv.1 "Auctioneer:" && kv.2.isDict).find?
        fun kv =>
          if targetTruthy target then pyEqV (pyGet kv.2 "id") (pyOfTarget target)
          else (pyGet kv.2 "phone").truthy || (pyGet kv.2 "email").truthy).map
        fun kv => kv.2 := by
  induction l with
  | nil => rfl
  | cons kv rest ih =>
    by_cases hp : pyStartsWith kv.1 "Auctioneer:" = true
    · by_cases hd : kv.2.isDict = true
      · by_cases ht : targetTruthy target = true
        · by_cases hm : pyEqV (pyGet kv.2 "id") (pyOfTarget target) = true
          · simp [detailEntityLoop, hp, hd, ht, hm, List.filter_cons, List.find?_cons]
          · have hm' : pyEqV (pyGet kv.2 "id") (pyOfTarget target) = false := by
              simpa using hm
            simp [detailEntityLoop, hp, hd, ht, hm', List.filter_cons, List.find?_cons, ih]
        · have ht' : targetTruthy target = false := by simpa using ht
          by_cases hpe : ((pyGet kv.2 "phone").truthy || (pyGet kv.2 "email").truthy) = true
          · simp [detailEntityLoop, hp, hd, ht', hpe, List.filter_cons, List.find?_cons]
          · have hpe' : ((pyGet kv.2 "phone").truthy || (pyGet kv.2 "email").truthy) = false := by
              simpa using hpe
            simp [detailEntityLoop, hp, hd, ht', hpe', List.filter_cons, List.find?_cons, ih]
      · have hd' : kv.2.isDict = false := by simpa using hd
        simp [detailEntityLoop, hp, hd', List.filter_cons, ih]
    · have hp' : pyStartsWith kv.1 "Auctioneer:" = false := by simpa using hp
      simp [detailEntityLoop, hp', List.filter_cons, ih]

/-- The root-query pass is a first-match search for a key containing
`auctioneer` (case-insensitively) holding a dict whose `__ref` has the
entity prefix and resolves to a truthy dict. -/
theorem rootScanLoop_eq (st : List (String × PyVal)) (l : List (String × PyVal)) :
    rootScanLoop st l =
      (l.find? fun kv =>
        containsSub "auctioneer" (pyLower kv.1) && kv.2.isDict &&
          pyStartsWith ((pyGetD kv.2 "__ref" (.str "")).asStr) "Auctioneer:" &&
          ((lookupStr st ((pyGetD kv.2 "__ref" (.str "")).asStr)).getD .none).truthy &&
          ((lookupStr st ((pyGetD kv.2 "__ref" (.str "")).asStr)).getD .none).isDict).map
        fun kv => (lookupStr st ((pyGetD kv.2 "__ref" (.str "")).asStr)).getD .none := by
  induction l with
  | nil => rfl
  | cons kv rest ih =>
    by_cases h1 : (containsSub "auctioneer" (pyLower kv.1) && kv.2.isDict) = true
    · by_cases h2 : pyStartsWith ((pyGetD kv.2 "__ref" (.str "")).asStr) "Auctioneer:" = true
      · by_cases h3 :
            (((lookupStr st ((pyGetD kv.2 "__ref" (.str "")).asStr)).getD .none).truthy &&
              ((lookupStr st ((pyGetD kv.2 "__ref" (.str "")).asStr)).getD .none).isDict) = true
        · simp only [rootScanLoop, h1, if_true, h2, h3, List.find?_cons]
          simp_all
        · have h3' :
              (((lookupStr st ((pyGetD kv.2 "__ref" (.str "")).asStr)).getD .none).truthy &&
                ((lookupStr st ((pyGetD kv.2 "__ref" (.str "")).asStr)).getD .none).isDict) =
                false := by simpa using h3
          simp [rootScanLoop, h1, h2, h3', List.find?_cons, ih]
      · have h2' : pyStartsWith ((pyGetD kv.2 "__ref" (.str "")).asStr) "Auctioneer:" = false := by
          simpa using h2
        simp only [rootScanLoop, h1, if_true, h2', List.find?_cons]
        simp_all
    · have h1' : (containsSub "auctioneer" (pyLower kv.1) && kv.2.isDict) = false := by
        simpa using h1
      simp only [rootScanLoop, h1', List.find?_cons]
      simp_all

/-- C1 (amended): over an embedded state, the detail view first returns
the first `Auctioneer:` entity whose id equals the parsed target id when
a truthy (nonzero) target id exists; the first entity with a truthy
phone or email is used only when no truthy target id was parsed; in all
remaining cases — including a parsed target id matching no entity — the
query root is scanned for a key containing `auctioneer`
(case-insensitively) whose `__ref` resolves, and failing that the result
is absent. -/
theorem C1_detail_strategy_order (st : List (String × PyVal)) (url : String) :
    _extract_details_from_apollo st url =
      if st.isEmpty then Option.none
      else
        match
          ((st.filter fun kv => pyStartsWith kv.1 "Auctioneer:" && kv.2.isDict).find?
            fun kv =>
              if targetTruthy (_extract_company_id_from_url url) then
                pyEqV (pyGet kv.2 "id") (pyOfTarget (_extract_company_id_from_url url))
              else (pyGet kv.2 "phone").truthy || (pyGet kv.2 "email").truthy)
        with
        | Option.some kv => Option.some (_format_auctioneer_detail kv.2.asDictD url)
        | Option.none =>
          ((rootItems st).find? fun kv =>
            containsSub "auctioneer" (pyLower kv.1) && kv.2.isDict &&
              pyStartsWith ((pyGetD kv.2 "__ref" (.str "")).asStr) "Auctioneer:" &&
              ((lookupStr st ((pyGetD kv.2 "__ref" (.str "")).asStr)).getD .none).truthy &&
              ((lookupStr st ((pyGetD kv.2 "__ref" (.str "")).asStr)).getD .none).isDict).map
            fun kv =>
              _format_auctioneer_detail
                (((lookupStr st ((pyGetD kv.2 "__ref" (.str "")).asStr)).getD .none).asDictD)
                url := by
  unfold _extract_details_from_apollo
  by_cases h0 : st.isEmpty
  · simp [h0]
  · simp only [h0, if_false, detailEntityLoop_eq, rootScanLoop_eq]
    cases hf : ((st.filter fun kv => pyStartsWith kv.1 "Auctioneer:" && kv.2.isDict).find?
        fun kv =>
          if targetTruthy (_extract_company_id_from_url url) then
            pyEqV (pyGet kv.2 "id") (pyOfTarget (_extract_company_id_from_url url))
          else (pyGet kv.2 "phone").truthy || (pyGet kv.2 "email").truthy) with
    | some kv => simp [hf, Option.map_map]
    | none => simp [hf, Option.map_map]; rfl

/-- C1 counterexample: the state holds one entity (id 7, with a phone)
and the URL parses to target id 5.  The claim's second sub-strategy says
the phone-carrying entity is returned; the code skips the phone/email
fallback because a target id exists, the root scan finds nothing, and
the result is absent. -/
theorem C1_counterexample :
    _extract_company_id_from_url "https://hibid.com/company/5/x" = Option.some 5 ∧
    (pyGet (.dict [("id", .int 7), ("phone", .str "555-0100")]) "phone").truthy = true ∧
    _extract_details_from_apollo
      [("Auctioneer:7", .dict [("id", .int 7), ("phone", .str "555-0100")])]
      "https://hibid.com/company/5/x" = Option.none := by
  refine ⟨by decide, by decide, by rfl⟩

/-- C7: the list endpoint defaults `page` to 1 when absent; a supplied
value that does not parse as an integer, or parses outside 1..31, gets a
400 error response whose content does not depend on the extraction
oracles — so no extraction is attempted and no 500 is produced. -/
theorem C7_page_validation (a : Option (List (String × PyVal))) (h : Option (List PyVal))
    (v : String) :
    handleList Option.none a h = handleList (Option.some "1") a h
    ∧ ((pyInt? v).isNone = true →
        handleList (Option.some v) a h = .err 400 "Invalid parameter: page")
    ∧ (∀ n : Int, pyInt? v = Option.some n → (n < 1 ∨ 31 < n) →
        handleList (Option.some v) a h = .err 400 "Page must be between 1 and 31.") := by
  refine ⟨rfl, ?_, ?_⟩
  · intro hv
    rw [Option.isNone_iff_eq_none] at hv
    simp [handleList, hv]
  · intro n hv hr
    have hcond : (n < 1 ∨ n > MAX_PAGE_NUMBER) := by
      rcases hr with h1 | h2
      · exact Or.inl h1
      · exact Or.inr (by unfold MAX_PAGE_NUMBER; omega)
    simp [handleList, hv, hcond]

/-- C7 witness: `page=32` is rejected with a 400 range error. -/
theorem C7_page_validation_witness :
    handleList (Option.some "32") Option.none Option.none =
      .err 400 "Page must be between 1 and 31." :=
  (C7_page_validation Option.none Option.none "32").2.2 32 rfl (by decide)

/-- C9: for two valid pages over the same fetched markup, the apollo
fetch results are identical (the model, like the source, never reads its
`page` argument), and the endpoint's responses agree on everything —
companies, total count, source, status — except the echoed page field. -/
theorem C9_page_independence (p q : Int) (sp sq : String)
    (st : Option (List (String × PyVal))) (html : Option (List PyVal))
    (hp : pyInt? sp = Option.some p) (hq : pyInt? sq = Option.some q)
    (hp1 : 1 ≤ p) (hp2 : p ≤ 31) (hq1 : 1 ≤ q) (hq2 : q ≤ 31) :
    fetch_company_list_from_apollo_state p st = fetch_company_list_from_apollo_state q st
    ∧ erasePage (handleList (Option.some sp) st html) =
        erasePage (handleList (Option.some sq) st html) := by
  refine ⟨rfl, ?_⟩
  have hpr : ¬(p < 1 ∨ p > MAX_PAGE_NUMBER) := by unfold MAX_PAGE_NUMBER; omega
  have hqr : ¬(q < 1 ∨ q > MAX_PAGE_NUMBER) := by unfold MAX_PAGE_NUMBER; omega
  simp only [handleList, Option.getD_some, hp, hq, hpr, if_false, hqr]
  cases hr : fetch_company_list_from_apollo_state p st with
  | none =>
    have hr' : fetch_company_list_from_apollo_state q st = Option.none := hr
    simp only [hr, hr']
    cases html with
    | none => rfl
    | some companies =>
      by_cases hc : companies.isEmpty <;> simp [htmlFallback, hc, erasePage]
  | some r =>
    have hr' : fetch_company_list_from_apollo_state q st = Option.some r := hr
    simp only [hr, hr']
    by_cases hc : r.companies.isEmpty
    · simp only [hc, Bool.not_true, Bool.false_eq_true, if_false]
      cases html with
      | none => rfl
      | some companies =>
        by_cases hc2 : companies.isEmpty <;> simp [htmlFallback, hc2, erasePage]
    · have hc' : r.companies.isEmpty = false := by simpa using hc
      simp [hc', erasePage]

/-- C9 witness at pages 1 and 2 over a one-entity apollo state. -/
theorem C9_page_independence_witness :
    fetch_company_list_from_apollo_state 1
        (Option.some [("Auctioneer:3", .dict [("id", .int 3), ("name", .str "Acme")])]) =
      fetch_company_list_from_apollo_state 2
        (Option.some [("Auctioneer:3", .dict [("id", .int 3), ("name", .str "Acme")])])
    ∧ erasePage (handleList (Option.some "1")
        (Option.some [("Auctioneer:3", .dict [("id", .int 3), ("name", .str "Acme")])])
        Option.none) =
      erasePage (handleList (Option.some "2")
        (Option.some [("Auctioneer:3", .dict [("id", .int 3), ("name", .str "Acme")])])
        Option.none) :=
  C9_page_independence 1 2 "1" "2"
    (Option.some [("Auctioneer:3", .dict [("id", .int 3), ("name", .str "Acme")])])
    Option.none rfl rfl (by decide) (by decide) (by decide) (by decide)

/-- Inversion: everything a successful `validate_url` run guarantees. -/
theorem validate_url_some_inv (resolve : String → Option (List ResolvedAddr))
    (raw out : String) (h : validate_url resolve (Option.some raw) = Option.some out) :
    ∃ full, fullUrlOf (pyStrip raw) = Option.some full ∧
      candidateHost raw = Option.some (pyLower (pyHostname (pyUrlparse full))) ∧
      pyLower (pyHostname (pyUrlparse full)) ∈ ALLOWED_DOMAINS ∧
      _is_private_host resolve (pyLower (pyHostname (pyUrlparse full))) = false ∧
      out = "https://" ++ pyLower (pyHostname (pyUrlparse full)) ++ (pyUrlparse full).path := by
  simp only [validate_url, Option.some_bind] at h
  by_cases h0 : raw = ""
  · rw [if_pos h0] at h; cases h
  · rw [if_neg h0] at h
    cases hfu : fullUrlOf (pyStrip raw) with
    | none => rw [hfu, Option.none_bind] at h; cases h
    | some full =>
      rw [hfu] at h
      simp only [Option.some_bind] at h
      refine ⟨full, rfl, ?_⟩
      by_cases hs :
          (!((pyUrlparse full).scheme == "http" || (pyUrlparse full).scheme == "https")) = true
      · rw [if_pos hs] at h; cases h
      · rw [if_neg hs] at h
        by_cases hh0 : pyHostname (pyUrlparse full) = ""
        · rw [if_pos hh0] at h; cases h
        · rw [if_neg hh0] at h
          by_cases hdom :
              (!(ALLOWED_DOMAINS.contains (pyLower (pyHostname (pyUrlparse full))))) = true
          · rw [if_pos hdom] at h; cases h
          · rw [if_neg hdom] at h
            by_cases hpath : (!(pyStartsWith (pyUrlparse full).path "/company/")) = true
            · rw [if_pos hpath] at h; cases h
            · rw [if_neg hpath] at h
              by_cases hlen :
                  (pySplitChar '/' (pyStripSlashes (pyUrlparse full).path)).length < 2
              · rw [if_pos hlen] at h; cases h
              · rw [if_neg hlen] at h
                by_cases hint :
                    (((pySplitChar '/' (pyStripSlashes (pyUrlparse full).path)).get? 1).bind
                      pyInt?).isNone = true
                · rw [if_pos hint] at h; cases h
                · rw [if_neg hint] at h
                  by_cases hpr :
                      _is_private_host resolve (pyLower (pyHostname (pyUrlparse full))) = true
                  · rw [if_pos hpr] at h; cases h
                  · rw [if_neg hpr] at h
                    refine ⟨?_, ?_, by simpa using hpr, by cases h; rfl⟩
                    · simp [candidateHost, h0, hfu, hh0]
                    · have hc : ALLOWED_DOMAINS.contains
                          (pyLower (pyHostname (pyUrlparse full))) = true := by
                        simpa using hdom
                      simpa using hc

/-- A path-like input (leading `/`) parses with an empty scheme. -/
theorem scheme_slash (s : String) (hs : pyStartsWith s "/company/" = true) :
    (pyUrlparse s).scheme = "" := by
  obtain ⟨t, ht⟩ := List.isPrefixOf_iff_prefix.mp hs
  unfold pyUrlparse
  rw [← ht]
  rfl

/-- An `http://` input parses with scheme `http`. -/
theorem scheme_http (s : String) (hs : pyStartsWith s "http://" = true) :
    (pyUrlparse s).scheme = "http" := by
  obtain ⟨t, ht⟩ := List.isPrefixOf_iff_prefix.mp hs
  unfold pyUrlparse
  rw [← ht]
  rfl

/-- An `https://` input parses with scheme `https`. -/
theorem scheme_https (s : String) (hs : pyStartsWith s "https://" = true) :
    (pyUrlparse s).scheme = "https" := by
  obtain ⟨t, ht⟩ := List.isPrefixOf_iff_prefix.mp hs
  unfold pyUrlparse
  rw [← ht]
  rfl

/-- Prefixing the base URL to a `/company/...` path puts the request on
the primary allowed host. -/
theorem hostLower_relative (s : String) (hs : pyStartsWith s "/company/" = true) :
    pyLower (pyHostname (pyUrlparse (HIBID_BASE_URL ++ s))) = "hibid.com" := by
  obtain ⟨t, ht⟩ := List.isPrefixOf_iff_prefix.mp hs
  have hdata : (HIBID_BASE_URL ++ s).data = "https://hibid.com".data ++ s.data := rfl
  unfold pyUrlparse
  rw [hdata, ← ht]
  rfl

/-- C4: modelling DNS as an oracle, whenever the host that `validate_url`
would check fails to resolve, or resolves exclusively to
private/loopback/link-local/reserved addresses, validation rejects —
regardless of the other checks. -/
theorem C4_ssrf_fail_closed (resolve : String → Option (List ResolvedAddr)) (raw host : String)
    (hh : candidateHost raw = Option.some host)
    (hbad : resolve host = Option.none ∨
      ∃ l, resolve host = Option.some l ∧ l ≠ [] ∧ ∀ a ∈ l, addrBlocked a = true) :
    validate_url resolve (Option.some raw) = Option.none := by
  cases hv : validate_url resolve (Option.some raw) with
  | none => rfl
  | some out =>
    exfalso
    obtain ⟨full, hfu, hch, hmem, hpriv, hout⟩ := validate_url_some_inv resolve raw out hv
    rw [hh] at hch
    have hhost : host = pyLower (pyHostname (pyUrlparse full)) := Option.some.inj hch
    rw [← hhost] at hpriv
    unfold _is_private_host at hpriv
    by_cases hhard : host = "localhost" ∨ host = "127.0.0.1" ∨ host = "::1" ∨ host = "0.0.0.0"
    · rw [if_pos hhard] at hpriv; cases hpriv
    · rw [if_neg hhard] at hpriv
      rcases hbad with hres | ⟨l, hres, hne, hall⟩
      · rw [hres] at hpriv; cases hpriv
      · rw [hres] at hpriv
        cases l with
        | nil => exact hne rfl
        | cons a rest =>
          have hba : addrBlocked a = true := hall a (List.mem_cons_self ..)
          simp [List.any_cons, hba] at hpriv

/-- C4 witness: with a resolver that always fails, a well-formed relative
profile path (whose candidate host is `hibid.com`) is rejected. -/
theorem C4_ssrf_fail_closed_witness :
    validate_url (fun _ => Option.none) (Option.some "/company/1/x") = Option.none :=
  C4_ssrf_fail_closed (fun _ => Option.none) "/company/1/x" "hibid.com" (by decide)
    (Or.inl rfl)

/-- C5: every accepted input yields exactly
`https://<lowercased-host><parsed-path>` for an allowed host — query and
fragment never survive — and every accepted relative `/company/...`
input lands on the primary allowed host. -/
theorem C5_output_shape (resolve : String → Option (List ResolvedAddr)) (raw out : String)
    (h : validate_url resolve (Option.some raw) = Option.some out) :
    (∃ full, fullUrlOf (pyStrip raw) = Option.some full ∧
       out = "https://" ++ pyLower (pyHostname (pyUrlparse full)) ++ (pyUrlparse full).path ∧
       pyLower (pyHostname (pyUrlparse full)) ∈ ALLOWED_DOMAINS)
    ∧ (pyStartsWith (pyStrip raw) "/company/" = true →
       out = "https://hibid.com" ++ (pyUrlparse (HIBID_BASE_URL ++ pyStrip raw)).path) := by
  obtain ⟨full, hfu, hch, hmem, hpriv, hout⟩ := validate_url_some_inv resolve raw out h
  constructor
  · exact ⟨full, hfu, hout, hmem⟩
  · intro hrel
    have hfull : full = HIBID_BASE_URL ++ pyStrip raw := by
      unfold fullUrlOf at hfu
      rw [if_pos hrel] at hfu
      exact (Option.some.inj hfu).symm
    subst hfull
    rw [hout, hostLower_relative (pyStrip raw) hrel]
    rfl

/-- C5 witness: a relative path with query and fragment validates to the
absolute https URL on `hibid.com` with both stripped. -/
theorem C5_output_shape_witness :
    validate_url (fun _ => Option.some [⟨false, false, false, false⟩])
        (Option.some "/company/123/abc?q=1#frag") =
      Option.some "https://hibid.com/company/123/abc" ∧
    "https://hibid.com/company/123/abc" =
      "https://hibid.com" ++
        (pyUrlparse (HIBID_BASE_URL ++ pyStrip "/company/123/abc?q=1#frag")).path :=
  ⟨rfl,
   (C5_output_shape (fun _ => Option.some [⟨false, false, false, false⟩])
      "/company/123/abc?q=1#frag" "https://hibid.com/company/123/abc" rfl).2 (by decide)⟩

/-- C10: `validate_url` rejects Python `None`, the empty string, and any
input carrying an explicit scheme other than `http` or `https`. -/
theorem C10_reject_basics (resolve : String → Option (List ResolvedAddr)) :
    validate_url resolve Option.none = Option.none
    ∧ validate_url resolve (Option.some "") = Option.none
    ∧ ∀ raw : String,
        (pyUrlparse (pyStrip raw)).scheme ≠ "" →
        (pyUrlparse (pyStrip raw)).scheme ≠ "http" →
        (pyUrlparse (pyStrip raw)).scheme ≠ "https" →
        validate_url resolve (Option.some raw) = Option.none := by
  refine ⟨rfl, rfl, ?_⟩
  intro raw h1 h2 h3
  simp only [validate_url, Option.some_bind]
  by_cases h0 : raw = ""
  · rw [if_pos h0]
  · rw [if_neg h0]
    have hfu : fullUrlOf (pyStrip raw) = Option.none := by
      unfold fullUrlOf
      by_cases hc : pyStartsWith (pyStrip raw) "/company/" = true
      · exact absurd (scheme_slash _ hc) h1
      · rw [if_neg hc]
        by_cases hh : (pyStartsWith (pyStrip raw) "http://" ||
            pyStartsWith (pyStrip raw) "https://") = true
        · rcases Bool.or_eq_true .. |>.mp hh with hx | hx
          · exact absurd (scheme_http _ hx) h2
          · exact absurd (scheme_https _ hx) h3
        · rw [if_neg hh]
    rw [hfu, Option.none_bind]

/-- C10 witness: an `ftp://` URL is rejected. -/
theorem C10_reject_basics_witness :
    validate_url (fun _ => Option.none) (Option.some "ftp://hibid.com/company/1/x") =
      Option.none :=
  (C10_reject_basics (fun _ => Option.none)).2.2 "ftp://hibid.com/company/1/x"
    (by decide) (by decide) (by decide)

/-- `dropTrailing` keeps a prefix of its input. -/
theorem dropTrailing_isPre (p : Char → Bool) : ∀ l : List Char, dropTrailing p l <+: l := by
  intro l
  induction l with
  | nil => exact List.prefix_refl _
  | cons c rest ih =>
    unfold dropTrailing
    cases hdt : dropTrailing p rest with
    | nil =>
      by_cases hp : p c = true
      · simp [hp]
      · simp only [hp, Bool.false_eq_true, if_false]
        exact ⟨rest, rfl⟩
    | cons x xs =>
      rw [hdt] at ih
      obtain ⟨t, ht⟩ := ih
      exact ⟨t, by simp [← ht]⟩

/-- Membership survives `dropTrailing` backwards. -/
theorem mem_of_mem_dropTrailing {p : Char → Bool} {l : List Char} {c : Char}
    (h : c ∈ dropTrailing p l) : c ∈ l :=
  (dropTrailing_isPre p l).sublist.mem h

/-- Membership survives `stripBoth` backwards. -/
theorem mem_of_mem_stripBoth {p : Char → Bool} {l : List Char} {c : Char}
    (h : c ∈ stripBoth p l) : c ∈ l :=
  (List.dropWhile_sublist p).mem (mem_of_mem_dropTrailing h)

/-- Each `subRuns` output character is the replacement or a kept input
character that fails the predicate. -/
theorem subRuns_mem (p : Char → Bool) (rep : Char) :
    ∀ (l : List Char) (b : Bool) (c : Char), c ∈ subRuns p rep b l →
      c = rep ∨ (c ∈ l ∧ p c = false) := by
  intro l
  induction l with
  | nil => intro b c h; cases h
  | cons x rest ih =>
    intro b c h
    unfold subRuns at h
    by_cases hp : p x = true
    · rw [if_pos hp] at h
      cases b with
      | true =>
        rcases ih true c h with h1 | ⟨h2, h3⟩
        · exact Or.inl h1
        · exact Or.inr ⟨List.mem_cons_of_mem _ h2, h3⟩
      | false =>
        rcases List.mem_cons.mp h with h1 | h1
        · exact Or.inl h1
        · rcases ih true c h1 with h2 | ⟨h2, h3⟩
          · exact Or.inl h2
          · exact Or.inr ⟨List.mem_cons_of_mem _ h2, h3⟩
    · rw [if_neg hp] at h
      rcases List.mem_cons.mp h with h1 | h1
      · subst h1
        exact Or.inr ⟨List.mem_cons_self .., by simpa using hp⟩
      · rcases ih false c h1 with h2 | ⟨h2, h3⟩
        · exact Or.inl h2
        · exact Or.inr ⟨List.mem_cons_of_mem _ h2, h3⟩

/-- After the hyphen-collapse machine has just emitted a hyphen, the next
output character is never a hyphen. -/
theorem subRuns_hyphen_head :
    ∀ (l : List Char) (x : Char),
      (subRuns (fun c => c == '-') '-' true l).head? = some x → x ≠ '-' := by
  intro l
  induction l with
  | nil => intro x h; cases h
  | cons c rest ih =>
    intro x h
    unfold subRuns at h
    by_cases hp : (c == '-') = true
    · rw [if_pos hp] at h
      exact ih x h
    · rw [if_neg hp] at h
      cases h
      simpa using hp

/-- The hyphen-collapse machine never outputs two adjacent hyphens. -/
theorem subRuns_hyphen_noDouble :
    ∀ (l : List Char) (b : Bool),
      hasDouble (subRuns (fun c => c == '-') '-' b l) = false := by
  intro l
  induction l with
  | nil => intro b; rfl
  | cons c rest ih =>
    intro b
    unfold subRuns
    by_cases hp : (c == '-') = true
    · rw [if_pos hp]
      cases b with
      | true => exact ih true
      | false =>
        simp only [Bool.false_eq_true, if_false]
        cases hx : subRuns (fun c => c == '-') '-' true rest with
        | nil => rfl
        | cons y t =>
          have hy : y ≠ '-' := subRuns_hyphen_head rest y (by rw [hx]; rfl)
          unfold hasDouble
          have : (y == '-') = false := by simpa using hy
          simp only [this, Bool.and_false, Bool.false_or]
          rw [← hx]
          exact ih true
    · rw [if_neg hp]
      cases hx : subRuns (fun c => c == '-') '-' false rest with
      | nil => rfl
      | cons y t =>
        unfold hasDouble
        have : (c == '-') = false := by simpa using hp
        simp only [this, Bool.false_and, Bool.false_or]
        rw [← hx]
        exact ih false

/-- Dropping the head cannot create a double hyphen. -/
theorem hasDouble_cons_false {a : Char} {l : List Char}
    (h : hasDouble (a :: l) = false) : hasDouble l = false := by
  cases l with
  | nil => rfl
  | cons b t =>
    unfold hasDouble at h
    exact (Bool.or_eq_false_iff.mp h).2

/-- No double hyphen in a list means none in any suffix. -/
theorem hasDouble_append_right {l₁ l₂ : List Char}
    (h : hasDouble (l₁ ++ l₂) = false) : hasDouble l₂ = false := by
  induction l₁ with
  | nil => exact h
  | cons a t ih => exact ih (hasDouble_cons_false h)

/-- No double hyphen in a list means none in any prefix. -/
theorem hasDouble_append_left : ∀ {l₁ l₂ : List Char},
    hasDouble (l₁ ++ l₂) = false → hasDouble l₁ = false := by
  intro l₁
  induction l₁ with
  | nil => intro l₂ h; rfl
  | cons a t ih =>
    intro l₂ h
    cases t with
    | nil => rfl
    | cons b u =>
      unfold hasDouble at h ⊢
      rcases Bool.or_eq_false_iff.mp h with ⟨h1, h2⟩
      exact Bool.or_eq_false_iff.mpr ⟨h1, ih h2⟩

/-- The head surviving `dropWhile` fails the predicate. -/
theorem head_dropWhile_false {p : Char → Bool} :
    ∀ {l : List Char} {c : Char}, (l.dropWhile p).head? = some c → p c = false := by
  intro l
  induction l with
  | nil => intro c h; cases h
  | cons x rest ih =>
    intro c h
    rw [List.dropWhile_cons] at h
    by_cases hp : p x = true
    · rw [if_pos hp] at h
      exact ih h
    · rw [if_neg hp] at h
      cases h
      simpa using hp

/-- The last character surviving `dropTrailing` fails the predicate. -/
theorem getLast_dropTrailing_false {p : Char → Bool} :
    ∀ {l : List Char} {c : Char}, (dropTrailing p l).getLast? = some c → p c = false := by
  intro l
  induction l with
  | nil => intro c h; cases h
  | cons x rest ih =>
    intro c h
    unfold dropTrailing at h
    cases hdt : dropTrailing p rest with
    | nil =>
      rw [hdt] at h
      by_cases hp : p x = true
      · rw [if_pos hp] at h; cases h
      · rw [if_neg hp] at h
        cases h
        simpa using hp
    | cons y t =>
      rw [hdt] at h
      rw [List.getLast?_cons_cons] at h
      exact ih (by rw [hdt]; exact h)

/-- The head of `stripBoth` fails the predicate. -/
theorem head_stripBoth_false {p : Char → Bool} {l : List Char} {c : Char}
    (h : (stripBoth p l).head? = some c) : p c = false := by
  unfold stripBoth at h
  obtain ⟨t, ht⟩ := dropTrailing_isPre p (l.dropWhile p)
  cases hdt : dropTrailing p (l.dropWhile p) with
  | nil => rw [hdt] at h; cases h
  | cons y u =>
    rw [hdt] at h
    cases h
    rw [hdt] at ht
    have hhd : (l.dropWhile p).head? = some c := by
      rw [← ht]
      rfl
    exact head_dropWhile_false hhd

/-- A map that fixes every member is the identity. -/
theorem map_fix {f : Char → Char} : ∀ {l : List Char}, (∀ c ∈ l, f c = c) → l.map f = l := by
  intro l
  induction l with
  | nil => intro _; rfl
  | cons x rest ih =>
    intro h
    rw [List.map_cons, h x (List.mem_cons_self ..), ih fun c hc => h c (List.mem_cons_of_mem _ hc)]

/-- `dropWhile` is the identity when the head already fails. -/
theorem dropWhile_eq_self_of_head {p : Char → Bool} {l : List Char}
    (h : ∀ c, l.head? = some c → p c = false) : l.dropWhile p = l := by
  cases l with
  | nil => rfl
  | cons x rest => simp [List.dropWhile_cons, h x rfl]

/-- `dropTrailing` is the identity when the last element already fails. -/
theorem dropTrailing_eq_self_of_getLast {p : Char → Bool} :
    ∀ {l : List Char}, (∀ c, l.getLast? = some c → p c = false) → dropTrailing p l = l := by
  intro l
  induction l with
  | nil => intro _; rfl
  | cons x rest ih =>
    intro h
    unfold dropTrailing
    cases hr : rest with
    | nil =>
      simp only [hr, dropTrailing]
      have := h x (by rw [hr]; rfl)
      simp [this]
    | cons y t =>
      have hrec : dropTrailing p rest = rest := by
        apply ih
        intro c hc
        apply h
        rw [hr] at hc ⊢
        rw [List.getLast?_cons_cons]
        exact hc
      rw [← hr, hrec, hr]

/-- `subRuns` is the identity when no character satisfies the run
predicate. -/
theorem subRuns_eq_self {p : Char → Bool} {rep : Char} :
    ∀ {l : List Char}, (∀ c ∈ l, p c = false) → ∀ b, subRuns p rep b l = l := by
  intro l
  induction l with
  | nil => intro _ b; rfl
  | cons x rest ih =>
    intro h b
    unfold subRuns
    rw [if_neg (by simp [h x (List.mem_cons_self ..)])]
    rw [ih fun c hc => h c (List.mem_cons_of_mem _ hc)]

/-- The hyphen-collapse machine is the identity on hyphen-canonical
lists: no double hyphen (and, in run state, no leading hyphen). -/
theorem subRuns_hyphen_eq_self :
    ∀ l : List Char,
      (hasDouble l = false → subRuns (fun c => c == '-') '-' false l = l) ∧
      (hasDouble l = false → l.head? ≠ some '-' →
        subRuns (fun c => c == '-') '-' true l = l) := by
  intro l
  induction l with
  | nil => exact ⟨fun _ => rfl, fun _ _ => rfl⟩
  | cons x rest ih =>
    constructor
    · intro hd
      unfold subRuns
      by_cases hp : (x == '-') = true
      · rw [if_pos hp]
        have hx : x = '-' := by simpa using hp
        have hhead : rest.head? ≠ some '-' := by
          intro hh
          cases rest with
          | nil => cases hh
          | cons y t =>
            cases hh
            unfold hasDouble at hd
            subst hx
            simp at hd
        rw [ih.2 (hasDouble_cons_false hd) hhead]
        simp [hx]
      · rw [if_neg hp]
        rw [ih.1 (hasDouble_cons_false hd)]
    · intro hd hh
      unfold subRuns
      have hx : x ≠ '-' := by
        intro he
        exact hh (by rw [he]; rfl)
      have hp : (x == '-') = false := by simpa using hx
      rw [if_neg (by simp [hp])]
      rw [ih.1 (hasDouble_cons_false hd)]

/-- Membership from `head?`. -/
theorem mem_of_head?_eq {l : List Char} {a : Char} (h : l.head? = some a) : a ∈ l := by
  cases l with
  | nil => cases h
  | cons x t =>
    cases h
    exact List.mem_cons_self ..

/-- Membership from `getLast?`. -/
theorem mem_of_getLast?_eq : ∀ {l : List Char} {a : Char}, l.getLast? = some a → a ∈ l := by
  intro l
  induction l with
  | nil => intro a h; cases h
  | cons x t ih =>
    intro a h
    cases t with
    | nil =>
      cases h
      exact List.mem_cons_self ..
    | cons y u =>
      rw [List.getLast?_cons_cons] at h
      exact List.mem_cons_of_mem _ (ih h)

/-- `dropWhile` empties a list every member of which satisfies `p`. -/
theorem dropWhile_eq_nil_all {p : Char → Bool} :
    ∀ {l : List Char}, (∀ c ∈ l, p c = true) → l.dropWhile p = [] := by
  intro l
  induction l with
  | nil => intro _; rfl
  | cons x rest ih =>
    intro h
    rw [List.dropWhile_cons, if_pos (h x (List.mem_cons_self ..))]
    exact ih fun c hc => h c (List.mem_cons_of_mem _ hc)

/-- Numeric view of the slug output alphabet. -/
theorem isSlugOut_iff {c : Char} :
    isSlugOut c = true ↔
      (97 ≤ c.toNat ∧ c.toNat ≤ 122) ∨ (48 ≤ c.toNat ∧ c.toNat ≤ 57) ∨ c = '-' := by
  simp [isSlugOut, Bool.or_eq_true, Bool.and_eq_true, decide_eq_true_eq, beq_iff_eq, or_assoc]

/-- Enumerated view of the whitespace class. -/
theorem isPySpace_iff {c : Char} :
    isPySpace c = true ↔
      c = ' ' ∨ c = '\t' ∨ c = '\n' ∨ c = '\r' ∨ c = '\x0b' ∨ c = '\x0c' := by
  simp [isPySpace, Bool.or_eq_true, beq_iff_eq, or_assoc]

/-- Numeric view of the keep class. -/
theorem isSlugKeep_iff {c : Char} :
    isSlugKeep c = true ↔
      (97 ≤ c.toNat ∧ c.toNat ≤ 122) ∨ (48 ≤ c.toNat ∧ c.toNat ≤ 57) ∨
        isPySpace c = true ∨ c = '-' := by
  simp [isSlugKeep, Bool.or_eq_true, Bool.and_eq_true, decide_eq_true_eq, beq_iff_eq, or_assoc]

/-- Numeric view of ASCII alphanumerics. -/
theorem isAsciiAlnum_iff {c : Char} :
    isAsciiAlnum c = true ↔
      (65 ≤ c.toNat ∧ c.toNat ≤ 90) ∨ (97 ≤ c.toNat ∧ c.toNat ≤ 122) ∨
        (48 ≤ c.toNat ∧ c.toNat ≤ 57) := by
  simp [isAsciiAlnum, Bool.or_eq_true, Bool.and_eq_true, decide_eq_true_eq, or_assoc]

/-- A whitespace character has one of six small code points. -/
theorem isPySpace_toNat {c : Char} (h : isPySpace c = true) :
    c.toNat = 32 ∨ c.toNat = 9 ∨ c.toNat = 10 ∨ c.toNat = 13 ∨
      c.toNat = 11 ∨ c.toNat = 12 := by
  rcases isPySpace_iff.mp h with h1 | h1 | h1 | h1 | h1 | h1 <;> subst h1 <;> simp

/-- Slug-output characters are not whitespace. -/
theorem slugOut_not_space {c : Char} (h : isSlugOut c = true) : isPySpace c = false := by
  by_contra hc
  simp only [Bool.not_eq_false] at hc
  have hs := isPySpace_toNat hc
  rcases isSlugOut_iff.mp h with ⟨h1, h2⟩ | ⟨h1, h2⟩ | h1
  · omega
  · omega
  · subst h1
    simp at hs

/-- Slug-output characters survive the keep filter. -/
theorem slugOut_keep {c : Char} (h : isSlugOut c = true) : isSlugKeep c = true := by
  rcases isSlugOut_iff.mp h with h1 | h1 | h1
  · exact isSlugKeep_iff.mpr (Or.inl h1)
  · exact isSlugKeep_iff.mpr (Or.inr (Or.inl h1))
  · exact isSlugKeep_iff.mpr (Or.inr (Or.inr (Or.inr h1)))

/-- Slug-output characters are fixed by lowering. -/
theorem slugOut_lower_fix {c : Char} (h : isSlugOut c = true) : pyToLower c = c := by
  rcases isSlugOut_iff.mp h with ⟨h1, h2⟩ | ⟨h1, h2⟩ | h1
  · unfold pyToLower
    rw [if_neg (by omega)]
  · unfold pyToLower
    rw [if_neg (by omega)]
  · subst h1
    decide

/-- Kept, non-whitespace characters are in the slug output alphabet. -/
theorem keep_not_space_out {c : Char} (hk : isSlugKeep c = true) (hs : isPySpace c = false) :
    isSlugOut c = true := by
  rcases isSlugKeep_iff.mp hk with h1 | h1 | h1 | h1
  · exact isSlugOut_iff.mpr (Or.inl h1)
  · exact isSlugOut_iff.mpr (Or.inr (Or.inl h1))
  · rw [h1] at hs; cases hs
  · exact isSlugOut_iff.mpr (Or.inr (Or.inr h1))

/-- Kept characters of a fully non-alphanumeric string are whitespace or
hyphens. -/
theorem keep_not_alnum {c : Char} (hk : isSlugKeep c = true)
    (hna : isAsciiAlnum c = false) : isPySpace c = true ∨ c = '-' := by
  have hna' : ¬((65 ≤ c.toNat ∧ c.toNat ≤ 90) ∨ (97 ≤ c.toNat ∧ c.toNat ≤ 122) ∨
      (48 ≤ c.toNat ∧ c.toNat ≤ 57)) := by
    intro hcon
    rw [isAsciiAlnum_iff.mpr hcon] at hna
    cases hna
  rcases isSlugKeep_iff.mp hk with h1 | h1 | h1 | h1
  · exact absurd (Or.inr (Or.inl h1)) hna'
  · exact absurd (Or.inr (Or.inr h1)) hna'
  · exact Or.inl h1
  · exact Or.inr h1

/-- Lowering fixes every non-alphanumeric character. -/
theorem lower_fix_not_alnum {c : Char} (h : isAsciiAlnum c = false) : pyToLower c = c := by
  have h' : ¬((65 ≤ c.toNat ∧ c.toNat ≤ 90) ∨ (97 ≤ c.toNat ∧ c.toNat ≤ 122) ∨
      (48 ≤ c.toNat ∧ c.toNat ≤ 57)) := by
    intro hcon
    rw [isAsciiAlnum_iff.mpr hcon] at h
    cases h
  unfold pyToLower
  rw [if_neg (by omega)]

/-- `_make_slug` is the identity on its own canonical outputs: strings
over `[a-z0-9-]` with no leading, trailing or doubled hyphen. -/
theorem slug_fixed (t : String)
    (hout : ∀ c ∈ t.data, isSlugOut c = true)
    (hhead : t.data.head? ≠ some '-')
    (hlast : t.data.getLast? ≠ some '-')
    (hnd : hasDouble t.data = false) : _make_slug t = t := by
  have hnospace : ∀ c ∈ t.data, isPySpace c = false :=
    fun c hc => slugOut_not_space (hout c hc)
  have h1 : t.data.map pyToLower = t.data :=
    map_fix fun c hc => slugOut_lower_fix (hout c hc)
  have h2 : stripBoth isPySpace t.data = t.data := by
    unfold stripBoth
    rw [dropWhile_eq_self_of_head fun c hc => hnospace c (mem_of_head?_eq hc)]
    rw [dropTrailing_eq_self_of_getLast fun c hc => hnospace c (mem_of_getLast?_eq hc)]
  have h3 : t.data.filter isSlugKeep = t.data :=
    List.filter_eq_self.mpr fun c hc => slugOut_keep (hout c hc)
  have h4 : subRuns isPySpace '-' false t.data = t.data := subRuns_eq_self hnospace false
  have h5 : subRuns (fun c => c == '-') '-' false t.data = t.data :=
    (subRuns_hyphen_eq_self t.data).1 hnd
  have h6 : stripBoth (fun c => c == '-') t.data = t.data := by
    unfold stripBoth
    rw [dropWhile_eq_self_of_head fun c hc => by
      have hcn : c ≠ '-' := fun he => hhead (he ▸ hc)
      simpa using hcn]
    rw [dropTrailing_eq_self_of_getLast fun c hc => by
      have hcn : c ≠ '-' := fun he => hlast (he ▸ hc)
      simpa using hcn]
  show _make_slug t = t
  simp only [_make_slug]
  rw [h1, h2, h3, h4, h5, h6]

/-- C6: slug derivation is idempotent; its output uses only `[a-z0-9-]`,
with no leading, trailing or doubled hyphen; and an entirely
non-alphanumeric name yields the empty slug. -/
theorem C6_slug_canonical (s : String) :
    _make_slug (_make_slug s) = _make_slug s
    ∧ (∀ c ∈ (_make_slug s).data, isSlugOut c = true)
    ∧ (_make_slug s).data.head? ≠ some '-'
    ∧ (_make_slug s).data.getLast? ≠ some '-'
    ∧ hasDouble (_make_slug s).data = false
    ∧ ((∀ c ∈ s.data, isAsciiAlnum c = false) → _make_slug s = "") := by
  have hdata : (_make_slug s).data =
      stripBoth (fun c => c == '-')
        (subRuns (fun c => c == '-') '-' false
          (subRuns isPySpace '-' false
            ((stripBoth isPySpace (s.data.map pyToLower)).filter isSlugKeep))) := rfl
  have hout : ∀ c ∈ (_make_slug s).data, isSlugOut c = true := by
    intro c hc
    rw [hdata] at hc
    have hc5 := mem_of_mem_stripBoth hc
    rcases subRuns_mem _ _ _ _ _ hc5 with h1 | ⟨h2, h3⟩
    · subst h1; decide
    · rcases subRuns_mem _ _ _ _ _ h2 with h4 | ⟨h5, h6⟩
      · subst h4; decide
      · exact keep_not_space_out (List.of_mem_filter h5) h6
  have hhead : (_make_slug s).data.head? ≠ some '-' := by
    intro hh
    rw [hdata] at hh
    have := head_stripBoth_false hh
    simp at this
  have hlast : (_make_slug s).data.getLast? ≠ some '-' := by
    intro hh
    rw [hdata] at hh
    unfold stripBoth at hh
    have := getLast_dropTrailing_false hh
    simp at this
  have hnd : hasDouble (_make_slug s).data = false := by
    rw [hdata]
    have hnd0 : hasDouble (subRuns (fun c => c == '-') '-' false
        (subRuns isPySpace '-' false
          ((stripBoth isPySpace (s.data.map pyToLower)).filter isSlugKeep))) = false :=
      subRuns_hyphen_noDouble _ false
    generalize hL : subRuns (fun c => c == '-') '-' false
        (subRuns isPySpace '-' false
          ((stripBoth isPySpace (s.data.map pyToLower)).filter isSlugKeep)) = L5 at hnd0 ⊢
    unfold stripBoth
    have hsplit : hasDouble (L5.takeWhile (fun c => c == '-') ++
        L5.dropWhile (fun c => c == '-')) = false := by
      rw [List.takeWhile_append_dropWhile]
      exact hnd0
    have hX : hasDouble (L5.dropWhile (fun c => c == '-')) = false :=
      hasDouble_append_right hsplit
    obtain ⟨t, ht⟩ := dropTrailing_isPre (fun c => c == '-')
      (L5.dropWhile (fun c => c == '-'))
    have hY : hasDouble (dropTrailing (fun c => c == '-')
        (L5.dropWhile (fun c => c == '-')) ++ t) = false := by
      rw [ht]
      exact hX
    exact hasDouble_append_left hY
  have hidem : _make_slug (_make_slug s) = _make_slug s :=
    slug_fixed _ hout hhead hlast hnd
  have hempty : (∀ c ∈ s.data, isAsciiAlnum c = false) → _make_slug s = "" := by
    intro hna
    have hl1 : s.data.map pyToLower = s.data :=
      map_fix fun c hc => lower_fix_not_alnum (hna c hc)
    have hl4 : ∀ c ∈ subRuns isPySpace '-' false
        ((stripBoth isPySpace (s.data.map pyToLower)).filter isSlugKeep), c = '-' := by
      intro c hc
      rcases subRuns_mem _ _ _ _ _ hc with h1 | ⟨h2, h3⟩
      · exact h1
      · have hk := List.of_mem_filter h2
        have hmem : c ∈ s.data := by
          have hm3 := mem_of_mem_stripBoth (List.mem_of_mem_filter h2)
          rwa [hl1] at hm3
        rcases keep_not_alnum hk (hna c hmem) with hsp | hhy
        · rw [h3] at hsp; cases hsp
        · exact hhy
    have hl5 : ∀ c ∈ subRuns (fun c => c == '-') '-' false
        (subRuns isPySpace '-' false
          ((stripBoth isPySpace (s.data.map pyToLower)).filter isSlugKeep)), c = '-' := by
      intro c hc
      rcases subRuns_mem _ _ _ _ _ hc with h1 | ⟨h2, _⟩
      · exact h1
      · exact hl4 c h2
    have hdw : (subRuns (fun c => c == '-') '-' false
        (subRuns isPySpace '-' false
          ((stripBoth isPySpace (s.data.map pyToLower)).filter isSlugKeep))).dropWhile
        (fun c => c == '-') = [] :=
      dropWhile_eq_nil_all fun c hc => by simp [hl5 c hc]
    have hfinal : (_make_slug s).data = [] := by
      rw [hdata]
      show dropTrailing (fun c => c == '-')
        ((subRuns (fun c => c == '-') '-' false
          (subRuns isPySpace '-' false
            ((stripBoth isPySpace (s.data.map pyToLower)).filter isSlugKeep))).dropWhile
          (fun c => c == '-')) = []
      rw [hdw]
      rfl
    apply String.ext
    rw [hfinal]
  exact ⟨hidem, hout, hhead, hlast, hnd, hempty⟩

/-- C6 witness: the entirely non-alphanumeric name `@#$` slugs to the
empty string. -/
theorem C6_slug_canonical_witness : _make_slug "@#$" = "" :=
  (C6_slug_canonical "@#$").2.2.2.2.2 (by decide)
